import Mathlib

/-!
Dashboard.jsx: a shallow embedding of the admin dashboard component.

The component of `src/components/Dashboard.jsx` keeps six pieces of React state and
talks to a REST backend through `fetch`.  The embedding makes every effect explicit:

* the React state is the record `State`;
* every handler is cut at its `await` points into segments; a segment is a pure
  function from the state it runs on to an `Effect` (new state, requests issued,
  what the call awaits next, exception the call ended with);
* the event loop is the step function `step` on `Sys` (state, suspended calls,
  network log), driven by `Event`s (clicks, responses, timer).

JavaScript strings are Lean `String`s; `null` is `none`.
-/

deriving instance DecidableEq for Except

namespace Dashboard

/-! ## Data model -/

/-- A user record as delivered by `GET /users`. -/
structure User where
  _id : String
  telegram_id : String
  full_name : String
  nickname : String
  phone_number : String
  checked : Bool
deriving DecidableEq

/-- The value of the `alert` state variable. -/
structure AlertState where
  type : String
  message : String
  showConfirm : Bool
deriving DecidableEq

/-- The six `useState` variables of the component. -/
structure State where
  users : List User
  isLoading : Bool
  alert : AlertState
  deletingUserId : Option String
  checkingUserId : Option String
  userToDelete : Option String
deriving DecidableEq

/-- Exceptions that the code or the platform can raise. -/
inductive JsError where
  | invalidCharacterError
  | referenceError (name : String)
  | error (message : String)
deriving DecidableEq

/-- A JavaScript object used as header bag: keys in insertion order, `none` is `undefined`. -/
abbrev Headers := List (String × Option String)

/-- What the module finds around it: the `adminCredentials` entry of `localStorage`,
the configured `VITE_API_URL`, and the binding of the free identifier `mockUsers`
(the module neither declares nor imports it, so it resolves only if the global
scope happens to provide one; `none` means it is unbound). -/
structure Env where
  credentials : Option String
  VITE_API_URL : Option String
  mockUsers : Option (List User)
deriving DecidableEq

/-! ## Platform functions: `atob`, `btoa`, `String.prototype.split` -/

/-- ASCII whitespace as skipped by the forgiving base64 decoder. -/
def isAsciiWhitespace (c : Char) : Bool :=
  c.toNat = 9 || c.toNat = 10 || c.toNat = 12 || c.toNat = 13 || c.toNat = 32

/-- The base64 alphabet: value of a character, `none` outside the alphabet. -/
def charToSextet (c : Char) : Option Nat :=
  let n := c.toNat
  if 65 ≤ n ∧ n ≤ 90 then some (n - 65)
  else if 97 ≤ n ∧ n ≤ 122 then some (n - 71)
  else if 48 ≤ n ∧ n ≤ 57 then some (n + 4)
  else if n = 43 then some 62
  else if n = 47 then some 63
  else none

/-- The base64 alphabet: character of a six-bit value. -/
def sextetToChar (n : Nat) : Char :=
  if n < 26 then Char.ofNat (65 + n)
  else if n < 52 then Char.ofNat (71 + n)
  else if n < 62 then Char.ofNat (n - 4)
  else if n = 62 then '+'
  else '/'

/-- Bytes to six-bit groups, the last group zero-filled. -/
def encodeBytes : List Nat → List Nat
  | a :: b :: c :: rest =>
      (a / 4) :: ((a % 4) * 16 + b / 16) :: ((b % 16) * 4 + c / 64) :: (c % 64) :: encodeBytes rest
  | [a, b] => [a / 4, (a % 4) * 16 + b / 16, (b % 16) * 4]
  | [a] => [a / 4, (a % 4) * 16]
  | [] => []

/-- Six-bit groups to bytes, surplus bits of a short last group dropped. -/
def decodeSextets : List Nat → List Nat
  | a :: b :: c :: d :: rest =>
      (a * 4 + b / 16) :: ((b % 16) * 16 + c / 4) :: ((c % 4) * 64 + d) :: decodeSextets rest
  | [a, b, c] => [a * 4 + b / 16, (b % 16) * 16 + c / 4]
  | [a, b] => [a * 4 + b / 16]
  | _ => []

/-- Number of `=` signs that complete the encoding of `n` bytes. -/
def padLength (n : Nat) : Nat := (3 - n % 3) % 3

/-- Base64 text of a byte sequence, with padding. -/
def btoaChars (bytes : List Nat) : List Char :=
  (encodeBytes bytes).map sextetToChar ++ List.replicate (padLength bytes.length) '='

/-- The platform function `btoa`: raises when a character is above U+00FF. -/
def btoa (s : String) : Except JsError String :=
  if s.data.all (fun c => c.toNat < 256) then
    .ok (String.mk (btoaChars (s.data.map Char.toNat)))
  else .error .invalidCharacterError

/-- Removes one or two trailing `=` signs. -/
def stripPadding (data : List Char) : List Char :=
  match data.reverse with
  | '=' :: '=' :: r => r.reverse
  | '=' :: r => r.reverse
  | _ => data

/-- Values of a run of base64 characters, `none` when one is outside the alphabet. -/
def charsToSextets : List Char → Option (List Nat)
  | [] => some []
  | c :: cs =>
      match charToSextet c, charsToSextets cs with
      | some x, some xs => some (x :: xs)
      | _, _ => none

/-- Forgiving base64 decoding of a character sequence. -/
def atobChars (input : List Char) : Option (List Char) :=
  let data := input.filter (fun c => !isAsciiWhitespace c)
  let data := if data.length % 4 = 0 then stripPadding data else data
  if data.length % 4 = 1 then none
  else (charsToSextets data).map (fun sx => (decodeSextets sx).map Char.ofNat)

/-- The platform function `atob`: raises on text that is not base64. -/
def atob (s : String) : Except JsError String :=
  match atobChars s.data with
  | some cs => .ok (String.mk cs)
  | none => .error .invalidCharacterError

/-- Splitting at every occurrence of a separator character; the result is never empty. -/
def splitChars (sep : Char) : List Char → List (List Char)
  | [] => [[]]
  | c :: cs =>
      if c = sep then [] :: splitChars sep cs
      else
        match splitChars sep cs with
        | [] => [[c]]
        | p :: ps => (c :: p) :: ps

/-- The method `split` of a string, for a one-character separator. -/
def split (s : String) (sep : Char) : List String :=
  (splitChars sep s.data).map String.mk

/-- A `try { body } catch (error) { handler }` around a computation that may raise. -/
def tryCatch {α : Type} (body : Except JsError α) (handler : JsError → Except JsError α) :
    Except JsError α :=
  match body with
  | .ok v => .ok v
  | .error e => handler e

/-! ## The component -/

/-- The constant `API_URL`. -/
def API_URL (env : Env) : String :=
  match env.VITE_API_URL with
  | some url => if url = "" then "http://localhost:5000/api" else url
  | none => "http://localhost:5000/api"

/-- The function `getAuthHeaders` (lines 19-37). -/
def getAuthHeaders (env : Env) : Except JsError Headers :=
  match env.credentials with
  | some credentials =>
      if credentials ≠ "" then
        tryCatch
          (do
            let decoded ← atob credentials
            let parts := split decoded ':'
            pure [("Content-Type", some "application/json"),
                  ("Authorization", some ("Basic " ++ credentials)),
                  ("username", parts[0]?),
                  ("password", parts[1]?)])
          (fun _ => pure [("Content-Type", some "application/json")])
      else pure [("Content-Type", some "application/json")]
  | none => pure [("Content-Type", some "application/json")]

/-- HTTP methods used by the component. -/
inductive Method where
  | GET | PUT | DELETE
deriving DecidableEq

/-- One call of `fetch`. -/
structure Request where
  method : Method
  url : String
  headers : Headers
  body : Option String
deriving DecidableEq

/-- How a `GET /users` call settles: `ok data` is a response with `response.ok` whose
body parses to `data`, `okBadBody` one whose `response.json()` rejects, `notOk` a
response with another status, `rejected` a `fetch` that rejects. -/
inductive GetOutcome where
  | ok (data : List User)
  | okBadBody
  | notOk
  | rejected
deriving DecidableEq

/-- How a `PUT` or `DELETE` call settles. -/
inductive Outcome where
  | ok
  | notOk
  | rejected
deriving DecidableEq

/-- What a suspended handler call is waiting for. -/
inductive Pending where
  | get
  | timer
  | put (userId : String)
  | delete (userId : String)
deriving DecidableEq

/-- What one segment of a handler does: the state it leaves, the requests it issued,
what the call awaits next (`none`: the call is over) and the exception the call
ended with (`none`: it returned normally). -/
structure Effect where
  state : State
  requests : List Request
  awaits : Option Pending
  thrown : Option JsError
deriving DecidableEq

/-- Runs the next segment of a call on the state the previous one left. -/
def Effect.andThen (e : Effect) (k : State → Effect) : Effect :=
  let e2 := k e.state
  { state := e2.state, requests := e.requests ++ e2.requests,
    awaits := e2.awaits, thrown := e2.thrown }

def setUsers (users : List User) (s : State) : State := { s with users := users }
def setUsersWith (f : List User → List User) (s : State) : State := { s with users := f s.users }
def setIsLoading (b : Bool) (s : State) : State := { s with isLoading := b }
def setAlert (a : AlertState) (s : State) : State := { s with alert := a }
def setDeletingUserId (v : Option String) (s : State) : State := { s with deletingUserId := v }
def setCheckingUserId (v : Option String) (s : State) : State := { s with checkingUserId := v }
def setUserToDelete (v : Option String) (s : State) : State := { s with userToDelete := v }

/-- The initial values of the `useState` calls (lines 6-11). -/
def initialState : State :=
  { users := [], isLoading := true, alert := ⟨"", "", false⟩,
    deletingUserId := none, checkingUserId := none, userToDelete := none }

/-- Start of `fetchUsers` (lines 39-45): up to the `await fetch`. Were `getAuthHeaders`
to raise, control would pass to the `catch` block and its timer. -/
def fetchUsers_start (env : Env) (s : State) : Effect :=
  let s := setIsLoading true s
  match getAuthHeaders env with
  | .ok headers =>
      { state := s, requests := [⟨.GET, API_URL env ++ "/users", headers, none⟩],
        awaits := some .get, thrown := none }
  | .error _ => { state := s, requests := [], awaits := some .timer, thrown := none }

/-- Continuation of `fetchUsers` when the request settles (lines 47-56): on success the
list is replaced and `finally` runs; otherwise the `catch` block starts its timer. -/
def fetchUsers_settled (o : GetOutcome) (s : State) : Effect :=
  match o with
  | .ok data =>
      { state := s |> setUsers data |> setIsLoading false,
        requests := [], awaits := none, thrown := none }
  | _ => { state := s, requests := [], awaits := some .timer, thrown := none }

/-- Continuation of `fetchUsers` when the timer of the `catch` block fires (lines 57-61).
Evaluating the unbound identifier `mockUsers` raises; `finally` runs either way. -/
def fetchUsers_fallback (env : Env) (s : State) : Effect :=
  match env.mockUsers with
  | some mockUsers =>
      { state := s |> setUsers mockUsers
                   |> setAlert ⟨"error",
                        "API\x27ga ulanib bo\x27lmadi. Demo ma\x27lumotlar ishlatilmoqda.", false⟩
                   |> setIsLoading false,
        requests := [], awaits := none, thrown := none }
  | none =>
      { state := s |> setIsLoading false,
        requests := [], awaits := none, thrown := some (.referenceError "mockUsers") }

/-- The updater of `handleCheck` (lines 76-78 and 86-88). -/
def markChecked (userId : String) (prev : List User) : List User :=
  prev.map (fun user => if user._id = userId then { user with checked := true } else user)

/-- The `catch` and `finally` blocks of `handleCheck` (lines 83-92). -/
def handleCheck_caught (userId : String) (s : State) : Effect :=
  { state := s |> setUsersWith (markChecked userId)
               |> setAlert ⟨"success", "Foydalanuvchi tasdiqlandi (Demo rejim)", false⟩
               |> setCheckingUserId none,
    requests := [], awaits := none, thrown := none }

/-- Start of `handleCheck` (lines 64-72): up to the `await fetch`. -/
def handleCheck_start (env : Env) (userId : String) (s : State) : Effect :=
  let s := setCheckingUserId (some userId) s
  match getAuthHeaders env with
  | .ok headers =>
      { state := s,
        requests := [⟨.PUT, API_URL env ++ "/users/" ++ userId, headers,
                      some "\x7b\"checked\":true\x7d"⟩],
        awaits := some (.put userId), thrown := none }
  | .error _ => handleCheck_caught userId s

/-- Continuation of `handleCheck` when the request settles (lines 75-92). -/
def handleCheck_settled (o : Outcome) (userId : String) (s : State) : Effect :=
  match o with
  | .ok =>
      { state := s |> setUsersWith (markChecked userId)
                   |> setAlert ⟨"success", "Foydalanuvchi muvaffaqiyatli tasdiqlandi!", false⟩
                   |> setCheckingUserId none,
        requests := [], awaits := none, thrown := none }
  | _ => handleCheck_caught userId s

/-- The handler `handleDelete` (lines 95-103). -/
def handleDelete (userId : String) (s : State) : Effect :=
  let user := s.users.find? (fun u => u._id = userId)
  let name := match user with
    | some u => u.full_name
    | none => "undefined"
  { state := s |> setUserToDelete (some userId)
               |> setAlert ⟨"confirm",
                    "\"" ++ name ++
                      "\" foydalanuvchisini o\x27chirmoqchimisiz? Bu amal qaytarib bo\x27lmaydi.",
                    true⟩,
    requests := [], awaits := none, thrown := none }

/-- The `catch` and `finally` blocks of `confirmDelete` (lines 123-131). -/
def confirmDelete_caught (userToDelete : String) (s : State) : Effect :=
  { state := s |> setUsersWith (fun prev => prev.filter (fun user => user._id ≠ userToDelete))
               |> setAlert ⟨"success", "Foydalanuvchi o\x27chirildi (Demo rejim)", false⟩
               |> setDeletingUserId none
               |> setUserToDelete none,
    requests := [], awaits := none, thrown := none }

/-- Start of `confirmDelete` (lines 105-115): the guard `!userToDelete` holds for `null`
and for the empty string. -/
def confirmDelete_start (env : Env) (s : State) : Effect :=
  match s.userToDelete with
  | none => { state := s, requests := [], awaits := none, thrown := none }
  | some userToDelete =>
      if userToDelete = "" then { state := s, requests := [], awaits := none, thrown := none }
      else
        let s := s |> setDeletingUserId (some userToDelete) |> setAlert ⟨"", "", false⟩
        match getAuthHeaders env with
        | .ok headers =>
            { state := s,
              requests := [⟨.DELETE, API_URL env ++ "/users/" ++ userToDelete, headers, none⟩],
              awaits := some (.delete userToDelete), thrown := none }
        | .error _ => confirmDelete_caught userToDelete s

/-- Continuation of `confirmDelete` when the request settles (lines 117-131);
`userToDelete` is the value the call captured when it started. -/
def confirmDelete_settled (o : Outcome) (userToDelete : String) (s : State) : Effect :=
  match o with
  | .ok =>
      { state := s |> setUsersWith (fun prev => prev.filter (fun user => user._id ≠ userToDelete))
                   |> setAlert ⟨"success", "Foydalanuvchi muvaffaqiyatli o\x27chirildi!", false⟩
                   |> setDeletingUserId none
                   |> setUserToDelete none,
        requests := [], awaits := none, thrown := none }
  | _ => confirmDelete_caught userToDelete s

/-- The handler `cancelDelete` (lines 134-137). -/
def cancelDelete (s : State) : Effect :=
  { state := s |> setAlert ⟨"", "", false⟩ |> setUserToDelete none,
    requests := [], awaits := none, thrown := none }

/-! ### Whole calls, with nothing else happening in between -/

/-- A call of `fetchUsers` whose request settles as `o`, run to its end. -/
def fetchUsers (env : Env) (o : GetOutcome) (s : State) : Effect :=
  let e0 := fetchUsers_start env s
  let e1 := match e0.awaits with
    | some .get => e0.andThen (fetchUsers_settled o)
    | _ => e0
  match e1.awaits with
  | some .timer => e1.andThen (fetchUsers_fallback env)
  | _ => e1

/-- A call of `handleCheck` whose request settles as `o`, run to its end. -/
def handleCheck (env : Env) (o : Outcome) (userId : String) (s : State) : Effect :=
  let e0 := handleCheck_start env userId s
  match e0.awaits with
  | some (.put id) => e0.andThen (handleCheck_settled o id)
  | _ => e0

/-- A call of `confirmDelete` whose request settles as `o`, run to its end. -/
def confirmDelete (env : Env) (o : Outcome) (s : State) : Effect :=
  let e0 := confirmDelete_start env s
  match e0.awaits with
  | some (.delete id) => e0.andThen (confirmDelete_settled o id)
  | _ => e0

/-! ### Rendering -/

/-- The `disabled` attribute of the check button (line 154). -/
def checkDisabled (s : State) (user : User) : Bool :=
  user.checked || s.checkingUserId == some user._id

/-- The `disabled` attribute of the delete button (line 171). -/
def deleteDisabled (s : State) (user : User) : Bool :=
  !user.checked || s.deletingUserId == some user._id

/-- One row of the users table (lines 275-308). -/
structure Row where
  key : String
  cells : List String
  status : String
  checkDisabled : Bool
  deleteDisabled : Bool
deriving DecidableEq

/-- The row rendered for a user. -/
def renderRow (s : State) (user : User) : Row :=
  { key := user._id,
    cells := [user._id, user.telegram_id, user.full_name, user.nickname, user.phone_number],
    status := if user.checked then "Checked" else "Pending",
    checkDisabled := checkDisabled s user,
    deleteDisabled := deleteDisabled s user }

/-- The rows on screen: none while the loading screen is shown (lines 188-197),
otherwise one per user in list order. -/
def displayedRows (s : State) : List Row :=
  if s.isLoading then [] else s.users.map (renderRow s)

/-! ### The event loop -/

/-- The component together with its suspended calls and the requests sent so far. -/
structure Sys where
  view : State
  pending : List Pending
  sent : List Request
deriving DecidableEq

/-- What can happen to the mounted component. -/
inductive Event where
  | refresh
  | getSettled (o : GetOutcome)
  | timerFired
  | clickCheck (userId : String)
  | putSettled (userId : String) (o : Outcome)
  | clickDelete (userId : String)
  | clickConfirm
  | clickCancel
  | deleteSettled (userId : String) (o : Outcome)
deriving DecidableEq

/-- Folds the effect of a segment into the system. -/
def Sys.absorb (sys : Sys) (resumed : Option Pending) (e : Effect) : Sys :=
  { view := e.state,
    pending := (match resumed with
                | some p => sys.pending.erase p
                | none => sys.pending) ++ e.awaits.toList,
    sent := sys.sent ++ e.requests }

/-- The mounted component: the effect of line 15 has called `fetchUsers`. -/
def mount (env : Env) : Sys :=
  Sys.absorb ⟨initialState, [], []⟩ none (fetchUsers_start env initialState)

/-- One event. Clicks need the table screen (not the loading screen); the check and the
delete click need a row of that user whose button is not disabled; a response needs
a call waiting for it. `none`: the event cannot happen in this state. -/
def step (env : Env) (sys : Sys) : Event → Option Sys
  | .refresh =>
      if sys.view.isLoading then none
      else some (sys.absorb none (fetchUsers_start env sys.view))
  | .getSettled o =>
      if Pending.get ∈ sys.pending then
        some (sys.absorb (some .get) (fetchUsers_settled o sys.view))
      else none
  | .timerFired =>
      if Pending.timer ∈ sys.pending then
        some (sys.absorb (some .timer) (fetchUsers_fallback env sys.view))
      else none
  | .clickCheck userId =>
      if (displayedRows sys.view).any (fun r => r.key == userId && !r.checkDisabled) then
        some (sys.absorb none (handleCheck_start env userId sys.view))
      else none
  | .putSettled userId o =>
      if Pending.put userId ∈ sys.pending then
        some (sys.absorb (some (.put userId)) (handleCheck_settled o userId sys.view))
      else none
  | .clickDelete userId =>
      if (displayedRows sys.view).any (fun r => r.key == userId && !r.deleteDisabled) then
        some (sys.absorb none (handleDelete userId sys.view))
      else none
  | .clickConfirm =>
      if sys.view.isLoading then none
      else some (sys.absorb none (confirmDelete_start env sys.view))
  | .clickCancel =>
      if sys.view.isLoading then none
      else some (sys.absorb none (cancelDelete sys.view))
  | .deleteSettled userId o =>
      if Pending.delete userId ∈ sys.pending then
        some (sys.absorb (some (.delete userId)) (confirmDelete_settled o userId sys.view))
      else none

/-- A sequence of events from a given system; `none` when one of them cannot happen. -/
def run (env : Env) (sys : Sys) : List Event → Option Sys
  | [] => some sys
  | e :: es =>
      match step env sys e with
      | some sys2 => run env sys2 es
      | none => none

/-! ### Sample data -/

/-- An environment without credentials, configuration or global `mockUsers`. -/
def envNone : Env := ⟨none, none, none⟩

def userA : User := ⟨"1", "1001", "Ali", "ali", "+998901111111", false⟩

def userB : User := ⟨"2", "1002", "Vali", "vali", "+998902222222", false⟩

/-- The table screen with two unchecked users. -/
def stateAB : State := { initialState with users := [userA, userB], isLoading := false }

/-- The table screen with user `1` checked and selected for deletion. -/
def stateDeleteA : State :=
  { initialState with
    users := [{ userA with checked := true }, userB], isLoading := false,
    userToDelete := some "1" }

/-- A state whose pending delete target is the empty string. -/
def stateEmptyId : State :=
  { initialState with
    users := [{ userA with _id := "", checked := true }], isLoading := false,
    userToDelete := some "" }

/-- No call of `confirmDelete` is waiting for its DELETE response. -/
def noDeletePending (sys : Sys) : Bool :=
  sys.pending.all (fun p =>
    match p with
    | .delete _ => false
    | _ => true)

/-- The list by which an event replaces the users list, if it does. -/
def replacement (env : Env) : Event → Option (List User)
  | .getSettled (.ok data) => some data
  | .timerFired => env.mockUsers
  | _ => none

/-- An event keeps deletions apart from reloads when it replaces the users list only
while no delete target is pending and no DELETE request is in flight, and only by a
list whose `_id`s are pairwise distinct. -/
def keepsDeletionApart (env : Env) (sys : Sys) (e : Event) : Bool :=
  match replacement env e with
  | some data =>
      sys.view.userToDelete == none && noDeletePending sys && decide (data.map User._id).Nodup
  | none => true

/-- A sequence of events each of which satisfies `ok` in the state it happens in. -/
def runGuarded (env : Env) (ok : Sys → Event → Bool) (sys : Sys) : List Event → Option Sys
  | [] => some sys
  | e :: es =>
      if ok sys e then
        match step env sys e with
        | some sys2 => runGuarded env ok sys2 es
        | none => none
      else none

/-- A check click stands alone when no PUT request for another user id is in flight;
every other event does. -/
def checkAlone (sys : Sys) : Event → Bool
  | .clickCheck userId =>
      sys.pending.all (fun p =>
        match p with
        | .put id => id == userId
        | _ => true)
  | _ => true

/-- Load two users, check the first, let its PUT be answered, then check the second. -/
def serialChecksTrace : List Event :=
  [.getSettled (.ok [userA, userB]), .clickCheck "1", .putSettled "1" .ok, .clickCheck "2"]

/-- Load one unchecked user, check it with a PUT that fails on the backend, select it for
deletion, reload (the backend still reports it unchecked), then confirm. -/
def reloadTrace : List Event :=
  [.getSettled (.ok [userA]), .clickCheck "1", .putSettled "1" .notOk, .clickDelete "1",
   .refresh, .getSettled (.ok [userA]), .clickConfirm]

/-- The system after `reloadTrace`. -/
def reloadSys : Sys :=
  (run envNone (mount envNone) reloadTrace).getD (mount envNone)

/-- The system after the DELETE of `reloadTrace` has succeeded. -/
def reloadDone : Sys :=
  (step envNone reloadSys (.deleteSettled "1" .ok)).getD reloadSys

/-- Load two users, check the first and select it for deletion. -/
def promptTrace : List Event :=
  [.getSettled (.ok [userA, userB]), .clickCheck "1", .putSettled "1" .ok, .clickDelete "1"]

/-- The system after `promptTrace`: the confirmation alert is up. -/
def promptSys : Sys :=
  (run envNone (mount envNone) promptTrace).getD (mount envNone)

/-- Load two users, check the first, select it for deletion and confirm. -/
def deleteTrace : List Event :=
  [.getSettled (.ok [userA, userB]), .clickCheck "1", .putSettled "1" .ok, .clickDelete "1",
   .clickConfirm]

/-- The system after `deleteTrace`. -/
def deleteSys : Sys :=
  (run envNone (mount envNone) deleteTrace).getD (mount envNone)

/-- The system after the DELETE of `deleteTrace` was rejected. -/
def deleteDone : Sys :=
  (step envNone deleteSys (.deleteSettled "1" .rejected)).getD deleteSys

/-! ### Properties carried along a run -/

/-- The property of C6 along one event: no PUT waits for another id than `u`, at most one
waits for `u`, and while one does the busy marker holds `u`. -/
def SingleCheck (userId : String) (sys : Sys) : Prop :=
  (∀ id, id ≠ userId → sys.pending.count (.put id) = 0) ∧
  sys.pending.count (.put userId) ≤ 1 ∧
  (sys.view.checkingUserId ≠ some userId → sys.pending.count (.put userId) = 0)

/-- Every record with the given id is checked. -/
def AllChecked (users : List User) (t : String) : Prop :=
  ∀ u ∈ users, u._id = t → u.checked = true

/-- The property of C1 along one event: ids are pairwise distinct, and the records of
the pending delete target and of every DELETE in flight are checked. -/
def DeleteSafe (sys : Sys) : Prop :=
  (sys.view.users.map User._id).Nodup ∧
  (∀ t, sys.view.userToDelete = some t → AllChecked sys.view.users t) ∧
  (∀ t, Pending.delete t ∈ sys.pending → AllChecked sys.view.users t)

/-- The events `es` contain a delete click on `t` that could happen where it stands and
that set the pending target to `t` and raised the confirmation alert, sending nothing
and leaving the users list as it was. -/
def Prompted (env : Env) (es : List Event) (t : String) : Prop :=
  ∃ (pre post : List Event) (sys0 sys1 : Sys),
    es = pre ++ Event.clickDelete t :: post ∧
    run env (mount env) pre = some sys0 ∧
    step env sys0 (.clickDelete t) = some sys1 ∧
    sys1.view.userToDelete = some t ∧
    sys1.view.alert.type = "confirm" ∧
    sys1.view.alert.showConfirm = true ∧
    sys1.sent = sys0.sent ∧
    sys1.view.users = sys0.view.users

/-! # Theorems -/

/-! ## Base64 and `split` -/

theorem charToSextet_sextetToChar : ∀ n, n < 64 → charToSextet (sextetToChar n) = some n := by
  decide

theorem sextetToChar_ne_pad : ∀ n, n < 64 → sextetToChar n ≠ '=' := by
  decide

theorem sextetToChar_not_whitespace : ∀ n, n < 64 → isAsciiWhitespace (sextetToChar n) = false := by
  decide

theorem encodeBytes_lt (bytes : List Nat) (h : ∀ b ∈ bytes, b < 256) :
    ∀ x ∈ encodeBytes bytes, x < 64 := by
  induction bytes using encodeBytes.induct with
  | case1 a b c rest ih =>
      simp only [List.mem_cons, forall_eq_or_imp] at h
      obtain ⟨ha, hb, hc, hrest⟩ := h
      simp only [encodeBytes, List.mem_cons, forall_eq_or_imp]
      refine ⟨by omega, by omega, by omega, by omega, ih hrest⟩
  | case2 a b =>
      simp only [List.mem_cons, forall_eq_or_imp] at h
      obtain ⟨ha, hb, -⟩ := h
      simp only [encodeBytes, List.mem_cons, forall_eq_or_imp]
      exact ⟨by omega, by omega, by omega, by simp⟩
  | case3 a =>
      simp only [List.mem_cons, forall_eq_or_imp] at h
      obtain ⟨ha, -⟩ := h
      simp only [encodeBytes, List.mem_cons, forall_eq_or_imp]
      exact ⟨by omega, by omega, by simp⟩
  | case4 => simp [encodeBytes]

theorem decodeSextets_encodeBytes (bytes : List Nat) (h : ∀ b ∈ bytes, b < 256) :
    decodeSextets (encodeBytes bytes) = bytes := by
  induction bytes using encodeBytes.induct with
  | case1 a b c rest ih =>
      simp only [List.mem_cons, forall_eq_or_imp] at h
      obtain ⟨ha, hb, hc, hrest⟩ := h
      simp only [encodeBytes, decodeSextets, ih hrest]
      congr 1
      · omega
      congr 1
      · omega
      congr 1
      omega
  | case2 a b =>
      simp only [List.mem_cons, forall_eq_or_imp] at h
      obtain ⟨ha, hb, -⟩ := h
      simp only [encodeBytes, decodeSextets]
      congr 1
      · omega
      congr 1
      omega
  | case3 a =>
      simp only [List.mem_cons, forall_eq_or_imp] at h
      obtain ⟨ha, -⟩ := h
      simp only [encodeBytes, decodeSextets]
      congr 1
      omega
  | case4 => simp [encodeBytes, decodeSextets]

theorem encodeBytes_length (bytes : List Nat) :
    (encodeBytes bytes).length % 4 ≠ 1 ∧
      ((encodeBytes bytes).length + padLength bytes.length) % 4 = 0 := by
  induction bytes using encodeBytes.induct with
  | case1 a b c rest ih =>
      have hp : padLength (a :: b :: c :: rest).length = padLength rest.length := by
        simp only [padLength, List.length_cons]
        omega
      rw [hp]
      simp only [encodeBytes, List.length_cons]
      omega
  | case2 a b => simp [encodeBytes, padLength]
  | case3 a => simp [encodeBytes, padLength]
  | case4 => simp [encodeBytes, padLength]

theorem padLength_le (n : Nat) : padLength n ≤ 2 := by
  unfold padLength
  omega

theorem stripPadding_append (m : List Char) (k : Nat) (hk : k ≤ 2) (hm : '=' ∉ m) :
    stripPadding (m ++ List.replicate k '=') = m := by
  have hlast : ∀ c r, m.reverse = c :: r → c ≠ '=' := by
    intro c r hr hc
    apply hm
    have : c ∈ m.reverse := by rw [hr]; exact List.mem_cons_self _ _
    rw [← hc]
    exact List.mem_reverse.mp this
  have hrev : m.reverse.reverse = m := List.reverse_reverse m
  unfold stripPadding
  rcases k with _ | _ | _ | k
  · simp only [List.replicate, List.append_nil]
    split
    · next r heq => exact absurd rfl (hlast _ _ heq)
    · next r _ heq => exact absurd rfl (hlast _ _ heq)
    · rfl
  · simp only [List.replicate, List.reverse_append, List.reverse_cons, List.reverse_nil,
      List.nil_append, List.singleton_append]
    split
    · next r heq =>
        simp only [List.cons.injEq, true_and] at heq
        exact absurd rfl (hlast _ _ heq)
    · next r _ heq =>
        simp only [List.cons.injEq, true_and] at heq
        rw [← heq, hrev]
    · next h1 h2 => exact absurd rfl (h2 _)
  · simp only [List.replicate, List.reverse_append, List.reverse_cons, List.reverse_nil,
      List.nil_append, List.singleton_append, List.cons_append]
    exact hrev
  · omega

theorem charsToSextets_map (sx : List Nat) (h : ∀ x ∈ sx, x < 64) :
    charsToSextets (sx.map sextetToChar) = some sx := by
  induction sx with
  | nil => rfl
  | cons x xs ih =>
      simp only [List.mem_cons, forall_eq_or_imp] at h
      simp [charsToSextets, charToSextet_sextetToChar x h.1, ih h.2]

theorem atobChars_btoaChars (cs : List Char) (h : ∀ c ∈ cs, c.toNat < 256) :
    atobChars (btoaChars (cs.map Char.toNat)) = some cs := by
  have hb : ∀ b ∈ cs.map Char.toNat, b < 256 := by
    intro b hb
    obtain ⟨c, hc, rfl⟩ := List.mem_map.mp hb
    exact h c hc
  have hlt := encodeBytes_lt _ hb
  have hlen := encodeBytes_length (cs.map Char.toNat)
  have hpad : '=' ∉ (encodeBytes (cs.map Char.toNat)).map sextetToChar := by
    intro hmem
    obtain ⟨x, hx, hxe⟩ := List.mem_map.mp hmem
    exact sextetToChar_ne_pad x (hlt x hx) hxe
  have hfilter : (btoaChars (cs.map Char.toNat)).filter (fun c => !isAsciiWhitespace c)
      = btoaChars (cs.map Char.toNat) := by
    apply List.filter_eq_self.mpr
    intro c hc
    unfold btoaChars at hc
    rcases List.mem_append.mp hc with hc | hc
    · obtain ⟨x, hx, rfl⟩ := List.mem_map.mp hc
      simp [sextetToChar_not_whitespace x (hlt x hx)]
    · rw [List.eq_of_mem_replicate hc]
      decide
  have hlen4 : (btoaChars (cs.map Char.toNat)).length % 4 = 0 := by
    simpa [btoaChars] using hlen.2
  have hstrip : stripPadding (btoaChars (cs.map Char.toNat))
      = (encodeBytes (cs.map Char.toNat)).map sextetToChar :=
    stripPadding_append _ _ (padLength_le _) hpad
  have hlen1 : ((encodeBytes (cs.map Char.toNat)).map sextetToChar).length % 4 ≠ 1 := by
    simpa using hlen.1
  unfold atobChars
  simp only [hfilter, hlen4, if_true, hstrip, if_neg hlen1, charsToSextets_map _ hlt,
    Option.map_some', decodeSextets_encodeBytes _ hb, List.map_map]
  congr 1
  conv_rhs => rw [← List.map_id cs]
  apply List.map_congr_left
  intro c _
  simp [Char.ofNat_toNat]

/-- Decoding undoes encoding: `atob(btoa(s))` is `s` whenever `btoa(s)` is defined. -/
theorem atob_btoa (s cred : String) (h : btoa s = .ok cred) : atob cred = .ok s := by
  unfold btoa at h
  split at h
  · next hall =>
      injection h with h
      subst h
      have := atobChars_btoaChars s.data (by simpa using hall)
      simp [atob, this]
  · cases h

theorem splitChars_no_sep (sep : Char) (p : List Char) (hp : sep ∉ p) :
    splitChars sep p = [p] := by
  induction p with
  | nil => rfl
  | cons c cs ih =>
      simp only [List.mem_cons, not_or] at hp
      have hc : c ≠ sep := fun h => hp.1 h.symm
      simp [splitChars, hc, ih hp.2]

theorem splitChars_append (sep : Char) (u rest : List Char) (hu : sep ∉ u) :
    splitChars sep (u ++ sep :: rest) = u :: splitChars sep rest := by
  induction u with
  | nil => simp [splitChars]
  | cons c cs ih =>
      simp only [List.mem_cons, not_or] at hu
      have hc : c ≠ sep := fun h => hu.1 h.symm
      simp [splitChars, hc, ih hu.2]

theorem encodeBytes_ne_nil (bytes : List Nat) (h : bytes ≠ []) : encodeBytes bytes ≠ [] := by
  induction bytes using encodeBytes.induct with
  | case1 a b c rest _ => simp [encodeBytes]
  | case2 a b => simp [encodeBytes]
  | case3 a => simp [encodeBytes]
  | case4 => exact absurd rfl h

theorem btoa_ne_empty (s cred : String) (h : btoa s = .ok cred) (hs : s.data ≠ []) :
    cred ≠ "" := by
  unfold btoa at h
  split at h
  · injection h with h
    subst h
    intro hc
    have hd : btoaChars (s.data.map Char.toNat) = [] := congrArg String.data hc
    unfold btoaChars at hd
    have hnil := (List.append_eq_nil.mp hd).1
    exact encodeBytes_ne_nil (s.data.map Char.toNat) (by simpa using hs) (by simpa using hnil)
  · cases h

/-! ## `getAuthHeaders` -/

theorem getAuthHeaders_ok (env : Env) : ∃ headers, getAuthHeaders env = .ok headers := by
  unfold getAuthHeaders
  split
  · split
    · cases atob _ <;> exact ⟨_, rfl⟩
    · exact ⟨_, rfl⟩
  · exact ⟨_, rfl⟩

/-- C7, as stated, fails: with username `a` and password `b:c` the stored credential is
`YTpiOmM=`, and `getAuthHeaders` sends the password header `b`. -/
theorem getAuthHeaders_password_with_colon :
    ¬ (∀ (u p cred : String) (url : Option String) (mock : Option (List User)),
        btoa (u ++ ":" ++ p) = .ok cred →
        getAuthHeaders ⟨some cred, url, mock⟩ =
          .ok [("Content-Type", some "application/json"),
               ("Authorization", some ("Basic " ++ cred)),
               ("username", some u),
               ("password", some p)]) := by
  intro h
  exact absurd (h "a" "b:c" "YTpiOmM=" none none (by decide)) (by decide)

theorem btoa_defined (s : String) (h : ∀ c ∈ s.data, c.toNat < 256) :
    ∃ cred, btoa s = .ok cred := by
  unfold btoa
  have hall : s.data.all (fun c => decide (c.toNat < 256)) = true := by
    simpa using h
  exact ⟨_, by rw [if_pos hall]⟩

/-- With a credential that is the base64 text of the UTF-8 bytes of `é:p`, the username
header is the two characters U+00C3 U+00A9, not `é`: `atob` yields one character per
byte. -/
theorem getAuthHeaders_bytes_not_characters :
    getAuthHeaders ⟨some "w6k6cA==", none, none⟩ =
      .ok [("Content-Type", some "application/json"),
           ("Authorization", some "Basic w6k6cA=="),
           ("username", some "Ã©"),
           ("password", some "p")] := by
  decide

/-- C7, amended: for every username `u` and password `p` whose characters are all at most
U+00FF and neither of which contains a colon, `btoa` encodes `u:p`, and when the stored
credential is that encoding `getAuthHeaders` returns Content-Type `application/json`,
Authorization `Basic ` followed by the credential, username `u` and password `p`. -/
theorem getAuthHeaders_of_btoa (u p : String) (url : Option String)
    (mock : Option (List User))
    (hu : ':' ∉ u.data) (hp : ':' ∉ p.data)
    (hlu : ∀ c ∈ u.data, c.toNat < 256) (hlp : ∀ c ∈ p.data, c.toNat < 256) :
    (∃ cred, btoa (u ++ ":" ++ p) = .ok cred) ∧
    ∀ cred, btoa (u ++ ":" ++ p) = .ok cred →
      getAuthHeaders ⟨some cred, url, mock⟩ =
        .ok [("Content-Type", some "application/json"),
             ("Authorization", some ("Basic " ++ cred)),
             ("username", some u),
             ("password", some p)] := by
  have hdata : (u ++ ":" ++ p).data = u.data ++ ':' :: p.data := by
    simp [String.data_append]
  refine ⟨btoa_defined _ ?_, ?_⟩
  · intro c hc
    rw [hdata] at hc
    rcases List.mem_append.mp hc with hc | hc
    · exact hlu c hc
    · rcases List.mem_cons.mp hc with hc | hc
      · rw [hc]
        decide
      · exact hlp c hc
  intro cred hcred
  have hdec := atob_btoa _ _ hcred
  have hne : cred ≠ "" := btoa_ne_empty _ _ hcred (by rw [hdata]; simp)
  have hsplit : split (u ++ ":" ++ p) ':' = [u, p] := by
    unfold split
    rw [hdata, splitChars_append _ _ _ hu, splitChars_no_sep _ _ hp]
    rfl
  unfold getAuthHeaders
  simp only [hne, ne_eq, not_false_eq_true, if_true, hdec, tryCatch, bind, Except.bind, pure,
    Except.pure, hsplit]
  rfl

theorem getAuthHeaders_of_btoa_witness :
    btoa ("admin" ++ ":" ++ "secret") = .ok "YWRtaW46c2VjcmV0" ∧
    getAuthHeaders ⟨some "YWRtaW46c2VjcmV0", none, none⟩ =
      .ok [("Content-Type", some "application/json"),
           ("Authorization", some ("Basic " ++ "YWRtaW46c2VjcmV0")),
           ("username", some "admin"),
           ("password", some "secret")] :=
  ⟨by decide,
    (getAuthHeaders_of_btoa "admin" "secret" none none (by decide) (by decide) (by decide)
      (by decide)).2 "YWRtaW46c2VjcmV0" (by decide)⟩

/-! ## Whole calls -/

theorem markChecked_checked (userId : String) (users : List User) :
    ∀ v ∈ markChecked userId users, v._id = userId → v.checked = true := by
  intro v hv hid
  obtain ⟨u, _, rfl⟩ := List.mem_map.mp hv
  by_cases h : u._id = userId
  · simp [h]
  · simp only [h, if_false] at hid

theorem markChecked_ids (userId : String) (users : List User) :
    (markChecked userId users).map User._id = users.map User._id := by
  unfold markChecked
  rw [List.map_map]
  apply List.map_congr_left
  intro u _
  by_cases h : u._id = userId <;> simp [h]

theorem handleCheck_users (env : Env) (o : Outcome) (userId : String) (s : State) :
    (handleCheck env o userId s).state.users = markChecked userId s.users ∧
      (handleCheck env o userId s).awaits = none ∧
      (handleCheck env o userId s).thrown = none := by
  obtain ⟨headers, hh⟩ := getAuthHeaders_ok env
  cases o <;>
    simp [handleCheck, handleCheck_start, hh, Effect.andThen, handleCheck_settled,
      handleCheck_caught, setUsersWith, setAlert, setCheckingUserId]

/-- C3: for a record `u` of the list with `_id = userId` and `checked = false`, a call
`handleCheck(userId)` ends normally whatever the PUT request does (ok, non-ok status,
rejection); afterwards the list holds that record with `checked = true`, every record
with that id is checked, the records are the same ones in the same order, and the list
is the same on the success path and on the failure paths. The same holds for
the continuation run on any later state. -/
theorem handleCheck_sets_checked (env : Env) (s : State) (userId : String) (u : User)
    (hu : u ∈ s.users) (hid : u._id = userId) (_hc : u.checked = false) (o : Outcome) :
    (handleCheck env o userId s).awaits = none ∧
    (handleCheck env o userId s).thrown = none ∧
    { u with checked := true } ∈ (handleCheck env o userId s).state.users ∧
    (∀ v ∈ (handleCheck env o userId s).state.users, v._id = userId → v.checked = true) ∧
    (handleCheck env o userId s).state.users.map User._id = s.users.map User._id ∧
    (handleCheck env o userId s).state.users = (handleCheck env .ok userId s).state.users ∧
    (∀ s2 : State, ∀ v ∈ (handleCheck_settled o userId s2).state.users,
        v._id = userId → v.checked = true) := by
  obtain ⟨h1, h2, h3⟩ := handleCheck_users env o userId s
  refine ⟨h2, h3, ?_, ?_, ?_, ?_, ?_⟩
  · rw [h1]
    exact List.mem_map.mpr ⟨u, hu, by simp [hid]⟩
  · rw [h1]
    exact markChecked_checked userId s.users
  · rw [h1]
    exact markChecked_ids userId s.users
  · rw [h1, (handleCheck_users env .ok userId s).1]
  · intro s2 v hv
    have : (handleCheck_settled o userId s2).state.users = markChecked userId s2.users := by
      cases o <;> simp [handleCheck_settled, handleCheck_caught, setUsersWith, setAlert,
        setCheckingUserId]
    rw [this] at hv
    exact markChecked_checked userId s2.users v hv

theorem handleCheck_sets_checked_witness :
    ({ userA with checked := true } : User) ∈
      (handleCheck envNone .notOk "1" stateAB).state.users :=
  (handleCheck_sets_checked envNone stateAB "1" userA (by decide) (by decide) (by decide)
    .notOk).2.2.1

theorem confirmDelete_effect (env : Env) (o : Outcome) (s : State) (t : String)
    (ht : s.userToDelete = some t) (hne : t ≠ "") :
    (confirmDelete env o s).state.users = s.users.filter (fun user => user._id ≠ t) ∧
      (confirmDelete env o s).state.userToDelete = none ∧
      (confirmDelete env o s).state.deletingUserId = none ∧
      (confirmDelete env o s).awaits = none ∧
      (confirmDelete env o s).thrown = none := by
  obtain ⟨headers, hh⟩ := getAuthHeaders_ok env
  cases o <;>
    simp [confirmDelete, confirmDelete_start, ht, hne, hh, Effect.andThen,
      confirmDelete_settled, confirmDelete_caught, setUsersWith, setAlert, setDeletingUserId,
      setUserToDelete]

/-- C4, as stated, fails: the empty string is a non-null id, yet with it as pending target
`confirmDelete` returns at its guard, removes nothing and leaves the target in place. -/
theorem confirmDelete_empty_target :
    ¬ (∀ (env : Env) (o : Outcome) (s : State) (t : String), s.userToDelete = some t →
        (confirmDelete env o s).state.userToDelete = none ∧
        ∀ u, u ∈ (confirmDelete env o s).state.users ↔ (u ∈ s.users ∧ u._id ≠ t)) := by
  intro h
  have h1 := (h envNone .ok stateEmptyId "" rfl).1
  exact absurd h1 (by decide)

/-- C4, amended: for every pending target id `t` other than the empty string, a call of
`confirmDelete` ends normally whatever the DELETE request does; afterwards the users
list is the previous list without the records whose `_id` is `t`, every other record
kept as it was and in the same relative order, and `userToDelete` is null. -/
theorem confirmDelete_removes_target (env : Env) (o : Outcome) (s : State) (t : String)
    (ht : s.userToDelete = some t) (hne : t ≠ "") :
    (confirmDelete env o s).awaits = none ∧
    (confirmDelete env o s).thrown = none ∧
    (confirmDelete env o s).state.userToDelete = none ∧
    (confirmDelete env o s).state.users = s.users.filter (fun user => user._id ≠ t) ∧
    (∀ u, u ∈ (confirmDelete env o s).state.users ↔ (u ∈ s.users ∧ u._id ≠ t)) ∧
    (∀ u, u._id ≠ t →
        (confirmDelete env o s).state.users.count u = s.users.count u) ∧
    List.Sublist (confirmDelete env o s).state.users s.users := by
  obtain ⟨h1, h2, -, h4, h5⟩ := confirmDelete_effect env o s t ht hne
  refine ⟨h4, h5, h2, h1, ?_, ?_, ?_⟩
  · intro u
    rw [h1]
    simp [List.mem_filter]
  · intro u hu
    rw [h1]
    exact List.count_filter (by simpa using hu)
  · rw [h1]
    exact List.filter_sublist _

theorem confirmDelete_removes_target_witness :
    (confirmDelete envNone .rejected stateDeleteA).state.users = [userB] ∧
      (confirmDelete envNone .rejected stateDeleteA).state.userToDelete = none := by
  have h := confirmDelete_removes_target envNone .rejected stateDeleteA "1" (by decide)
    (by decide)
  exact ⟨h.2.2.2.1.trans (by decide), h.2.2.1⟩

/-- C9: whatever the state before, a call of `fetchUsers` whose GET request succeeds with a
list `data` of N records ends normally with the users list equal to `data`, `isLoading`
false, and N rows on screen showing the records of `data` in response order. -/
theorem fetchUsers_success (env : Env) (s : State) (data : List User) :
    (fetchUsers env (.ok data) s).awaits = none ∧
    (fetchUsers env (.ok data) s).thrown = none ∧
    (fetchUsers env (.ok data) s).state.users = data ∧
    (fetchUsers env (.ok data) s).state.isLoading = false ∧
    (displayedRows (fetchUsers env (.ok data) s).state).length = data.length ∧
    (displayedRows (fetchUsers env (.ok data) s).state).map Row.key = data.map User._id ∧
    (displayedRows (fetchUsers env (.ok data) s).state).map Row.cells =
      data.map (fun u => [u._id, u.telegram_id, u.full_name, u.nickname, u.phone_number]) := by
  obtain ⟨headers, hh⟩ := getAuthHeaders_ok env
  have he : fetchUsers env (.ok data) s =
      { state := { s with users := data, isLoading := false },
        requests := [⟨.GET, API_URL env ++ "/users", headers, none⟩],
        awaits := none, thrown := none } := by
    simp [fetchUsers, fetchUsers_start, hh, Effect.andThen, fetchUsers_settled, setUsers,
      setIsLoading]
  rw [he]
  simp [displayedRows, renderRow, List.map_map, Function.comp_def]

/-- C10: in every state `cancelDelete` leaves the users list as it is, sets `userToDelete`
to null, resets the alert to type `''`, message `''`, showConfirm false, issues no
request and ends normally; the network log and the suspended calls stay as they are. -/
theorem cancelDelete_frame (s : State) (sys : Sys) :
    (cancelDelete s).state.users = s.users ∧
    (cancelDelete s).state.userToDelete = none ∧
    (cancelDelete s).state.alert = ⟨"", "", false⟩ ∧
    (cancelDelete s).requests = [] ∧
    (cancelDelete s).awaits = none ∧
    (cancelDelete s).thrown = none ∧
    (cancelDelete s).state.isLoading = s.isLoading ∧
    (cancelDelete s).state.checkingUserId = s.checkingUserId ∧
    (cancelDelete s).state.deletingUserId = s.deletingUserId ∧
    (sys.absorb none (cancelDelete sys.view)).sent = sys.sent ∧
    (sys.absorb none (cancelDelete sys.view)).pending = sys.pending := by
  simp [cancelDelete, setAlert, setUserToDelete, Sys.absorb]

theorem fetchUsers_failure (env : Env) (o : GetOutcome) (s : State)
    (ho : ∀ data, o ≠ .ok data) :
    (fetchUsers env o s).state = (fetchUsers_fallback env s).state ∧
      (fetchUsers env o s).awaits = none ∧
      (fetchUsers env o s).thrown = (fetchUsers_fallback env s).thrown := by
  have hfb : ∀ s2 : State, fetchUsers_fallback env (setIsLoading true s2) =
      fetchUsers_fallback env s2 := by
    intro s2
    unfold fetchUsers_fallback
    cases env.mockUsers <;> simp [setUsers, setAlert, setIsLoading]
  have haw : (fetchUsers_fallback env s).awaits = none := by
    unfold fetchUsers_fallback
    cases env.mockUsers <;> rfl
  obtain ⟨headers, hh⟩ := getAuthHeaders_ok env
  cases o with
  | ok data => exact absurd rfl (ho data)
  | okBadBody =>
      simp [fetchUsers, fetchUsers_start, hh, Effect.andThen, fetchUsers_settled, hfb, haw]
  | notOk =>
      simp [fetchUsers, fetchUsers_start, hh, Effect.andThen, fetchUsers_settled, hfb, haw]
  | rejected =>
      simp [fetchUsers, fetchUsers_start, hh, Effect.andThen, fetchUsers_settled, hfb, haw]

/-- With a global binding `mockUsers = demo`, a failed load ends with the list `demo`
and an alert of type `error` without confirmation. -/
theorem fetchUsers_failure_bound (env : Env) (o : GetOutcome) (s : State) (demo : List User)
    (ho : ∀ data, o ≠ .ok data) (hm : env.mockUsers = some demo) :
    (fetchUsers env o s).state.users = demo ∧
      (fetchUsers env o s).state.alert.type = "error" ∧
      (fetchUsers env o s).state.alert.showConfirm = false ∧
      (fetchUsers env o s).state.isLoading = false ∧
      (fetchUsers env o s).thrown = none := by
  obtain ⟨h1, -, h3⟩ := fetchUsers_failure env o s ho
  rw [h1, h3]
  simp [fetchUsers_fallback, hm, setUsers, setAlert, setIsLoading]

/-- C2 at the failing input: the module has no binding for `mockUsers`; when the GET
request fails (rejection, non-ok status, unreadable body) `fetchUsers` leaves the
users list and the alert as they were, so no demo dataset and no error alert appear. -/
theorem fetchUsers_failure_keeps_list (credentials url : Option String) (s : State) :
    (fetchUsers ⟨credentials, url, none⟩ .rejected s).state.users = s.users ∧
    (fetchUsers ⟨credentials, url, none⟩ .rejected s).state.alert = s.alert ∧
    (fetchUsers ⟨credentials, url, none⟩ .notOk s).state.users = s.users ∧
    (fetchUsers ⟨credentials, url, none⟩ .notOk s).state.alert = s.alert ∧
    (fetchUsers ⟨credentials, url, none⟩ .okBadBody s).state.users = s.users ∧
    (fetchUsers ⟨credentials, url, none⟩ .okBadBody s).state.alert = s.alert ∧
    (fetchUsers envNone .rejected initialState).state.alert.type ≠ "error" := by
  have h : ∀ o : GetOutcome, (∀ data, o ≠ .ok data) →
      (fetchUsers ⟨credentials, url, none⟩ o s).state.users = s.users ∧
      (fetchUsers ⟨credentials, url, none⟩ o s).state.alert = s.alert := by
    intro o ho
    rw [(fetchUsers_failure _ o s ho).1]
    simp [fetchUsers_fallback, setIsLoading]
  refine ⟨(h .rejected ?_).1, (h .rejected ?_).2, (h .notOk ?_).1, (h .notOk ?_).2,
    (h .okBadBody ?_).1, (h .okBadBody ?_).2, by decide⟩ <;> intro data hd <;> cases hd

/-- C8 at the failing input: the module has no binding for `mockUsers`; when the GET
request fails, the `catch` block of `fetchUsers` itself raises a ReferenceError, which
nothing catches: the call ends with that exception. -/
theorem fetchUsers_failure_raises (credentials url : Option String) (s : State) :
    (fetchUsers ⟨credentials, url, none⟩ .rejected s).thrown
      = some (.referenceError "mockUsers") ∧
    (fetchUsers ⟨credentials, url, none⟩ .notOk s).thrown
      = some (.referenceError "mockUsers") ∧
    (fetchUsers ⟨credentials, url, none⟩ .okBadBody s).thrown
      = some (.referenceError "mockUsers") := by
  have h : ∀ o : GetOutcome, (∀ data, o ≠ .ok data) →
      (fetchUsers ⟨credentials, url, none⟩ o s).thrown
        = some (.referenceError "mockUsers") := by
    intro o ho
    rw [(fetchUsers_failure _ o s ho).2.2]
    simp [fetchUsers_fallback]
  refine ⟨h .rejected ?_, h .notOk ?_, h .okBadBody ?_⟩ <;> intro data hd <;> cases hd

/-- The other operations named with `fetchUsers` end normally for every backend outcome
and every stored credential. -/
theorem other_operations_return (env : Env) (o : Outcome) (userId : String) (s : State) :
    (∃ headers, getAuthHeaders env = .ok headers) ∧
    ((handleCheck env o userId s).awaits = none ∧ (handleCheck env o userId s).thrown = none) ∧
    ((confirmDelete env o s).awaits = none ∧ (confirmDelete env o s).thrown = none) ∧
    (∀ data, (fetchUsers env (.ok data) s).thrown = none) := by
  refine ⟨getAuthHeaders_ok env, (handleCheck_users env o userId s).2, ?_, ?_⟩
  · obtain ⟨headers, hh⟩ := getAuthHeaders_ok env
    cases hs : s.userToDelete with
    | none => simp [confirmDelete, confirmDelete_start, hs]
    | some t =>
        by_cases hne : t = ""
        · simp [confirmDelete, confirmDelete_start, hs, hne]
        · obtain ⟨-, -, -, h4, h5⟩ := confirmDelete_effect env o s t hs hne
          exact ⟨h4, h5⟩
  · intro data
    obtain ⟨headers, hh⟩ := getAuthHeaders_ok env
    simp [fetchUsers, fetchUsers_start, hh, Effect.andThen, fetchUsers_settled]

/-! ## The event loop -/

theorem fetchUsers_start_eq (env : Env) (s : State) :
    ∃ r : Request, r.method = .GET ∧
      fetchUsers_start env s =
        { state := setIsLoading true s, requests := [r], awaits := some .get, thrown := none } := by
  obtain ⟨headers, hh⟩ := getAuthHeaders_ok env
  exact ⟨⟨.GET, API_URL env ++ "/users", headers, none⟩, rfl, by simp [fetchUsers_start, hh]⟩

theorem handleCheck_start_eq (env : Env) (userId : String) (s : State) :
    ∃ r : Request, r.method = .PUT ∧
      handleCheck_start env userId s =
        { state := setCheckingUserId (some userId) s, requests := [r],
          awaits := some (.put userId), thrown := none } := by
  obtain ⟨headers, hh⟩ := getAuthHeaders_ok env
  exact ⟨⟨.PUT, API_URL env ++ "/users/" ++ userId, headers, some "\x7b\"checked\":true\x7d"⟩,
    rfl, by simp [handleCheck_start, hh]⟩

theorem confirmDelete_start_eq (env : Env) (s : State) (t : String)
    (ht : s.userToDelete = some t) (hne : t ≠ "") :
    ∃ r : Request, r.method = .DELETE ∧ r.url = API_URL env ++ "/users/" ++ t ∧
      confirmDelete_start env s =
        { state := s |> setDeletingUserId (some t) |> setAlert ⟨"", "", false⟩,
          requests := [r], awaits := some (.delete t), thrown := none } := by
  obtain ⟨headers, hh⟩ := getAuthHeaders_ok env
  exact ⟨⟨.DELETE, API_URL env ++ "/users/" ++ t, headers, none⟩, rfl, rfl,
    by simp [confirmDelete_start, ht, hne, hh]⟩

theorem confirmDelete_start_idle (env : Env) (s : State)
    (h : s.userToDelete = none ∨ s.userToDelete = some "") :
    confirmDelete_start env s = { state := s, requests := [], awaits := none, thrown := none } := by
  rcases h with h | h <;> simp [confirmDelete_start, h]

theorem check_enabled (s : State) (userId : String)
    (h : (displayedRows s).any (fun r => r.key == userId && !r.checkDisabled) = true) :
    s.isLoading = false ∧
      ∃ u ∈ s.users, u._id = userId ∧ u.checked = false ∧ s.checkingUserId ≠ some userId := by
  unfold displayedRows at h
  cases hl : s.isLoading with
  | true => simp [hl] at h
  | false =>
      simp only [hl, Bool.false_eq_true, if_false, List.any_eq_true, List.mem_map] at h
      obtain ⟨r, ⟨u, hu, rfl⟩, hr⟩ := h
      simp only [renderRow, checkDisabled, Bool.and_eq_true, beq_iff_eq, Bool.not_eq_true',
        Bool.or_eq_false_iff] at hr
      obtain ⟨hid, hc, hb⟩ := hr
      refine ⟨rfl, u, hu, hid, hc, ?_⟩
      intro hcu
      rw [hcu, hid] at hb
      simp at hb

theorem delete_enabled (s : State) (userId : String)
    (h : (displayedRows s).any (fun r => r.key == userId && !r.deleteDisabled) = true) :
    s.isLoading = false ∧
      ∃ u ∈ s.users, u._id = userId ∧ u.checked = true ∧ s.deletingUserId ≠ some userId := by
  unfold displayedRows at h
  cases hl : s.isLoading with
  | true => simp [hl] at h
  | false =>
      simp only [hl, Bool.false_eq_true, if_false, List.any_eq_true, List.mem_map] at h
      obtain ⟨r, ⟨u, hu, rfl⟩, hr⟩ := h
      simp only [renderRow, deleteDisabled, Bool.and_eq_true, beq_iff_eq, Bool.not_eq_true',
        Bool.or_eq_false_iff, Bool.not_eq_false'] at hr
      obtain ⟨hid, hc, hb⟩ := hr
      refine ⟨rfl, u, hu, hid, hc, ?_⟩
      intro hcu
      rw [hcu, hid] at hb
      simp at hb

theorem SingleCheck_step (env : Env) (u : String) (sys sys2 : Sys) (e : Event)
    (hinv : SingleCheck u sys) (hstep : step env sys e = some sys2)
    (he : ∀ id, e = .clickCheck id → id = u) : SingleCheck u sys2 := by
  obtain ⟨h1, h2, h3⟩ := hinv
  cases e with
  | refresh =>
      obtain ⟨r, -, hr⟩ := fetchUsers_start_eq env sys.view
      simp only [step, hr] at hstep
      split at hstep
      · cases hstep
      · injection hstep with hstep
        subst hstep
        refine ⟨fun id hid => ?_, ?_, fun hc => ?_⟩
        · simpa [Sys.absorb, List.count_append] using h1 id hid
        · simpa [Sys.absorb, List.count_append] using h2
        · simpa [Sys.absorb, List.count_append] using h3 (by simpa [setIsLoading] using hc)
  | getSettled o =>
      simp only [step] at hstep
      split at hstep
      · injection hstep with hstep
        subst hstep
        have hv : (fetchUsers_settled o sys.view).state.checkingUserId
            = sys.view.checkingUserId := by
          cases o <;> simp [fetchUsers_settled, setUsers, setIsLoading]
        have hc : ∀ id, ((sys.absorb (some .get) (fetchUsers_settled o sys.view)).pending).count
            (.put id) = sys.pending.count (.put id) := by
          intro id
          cases o <;> simp [Sys.absorb, fetchUsers_settled, List.count_append,
            List.count_erase_of_ne]
        refine ⟨fun id hid => ?_, ?_, fun hcu => ?_⟩
        · rw [hc]; exact h1 id hid
        · rw [hc]; exact h2
        · rw [hc]; exact h3 (by simpa [Sys.absorb, hv] using hcu)
      · cases hstep
  | timerFired =>
      simp only [step] at hstep
      split at hstep
      · injection hstep with hstep
        subst hstep
        have hv : (fetchUsers_fallback env sys.view).state.checkingUserId
            = sys.view.checkingUserId := by
          unfold fetchUsers_fallback
          cases env.mockUsers <;> simp [setUsers, setIsLoading, setAlert]
        have hc : ∀ id, ((sys.absorb (some .timer) (fetchUsers_fallback env sys.view)).pending).count
            (.put id) = sys.pending.count (.put id) := by
          intro id
          unfold fetchUsers_fallback
          cases env.mockUsers <;> simp [Sys.absorb, List.count_append, List.count_erase_of_ne]
        refine ⟨fun id hid => ?_, ?_, fun hcu => ?_⟩
        · rw [hc]; exact h1 id hid
        · rw [hc]; exact h2
        · rw [hc]; exact h3 (by simpa [Sys.absorb, hv] using hcu)
      · cases hstep
  | clickCheck id =>
      have hid := he id rfl
      subst hid
      obtain ⟨r, -, hr⟩ := handleCheck_start_eq env id sys.view
      simp only [step, hr] at hstep
      split at hstep
      · next hg =>
          injection hstep with hstep
          subst hstep
          obtain ⟨-, v, -, -, -, hbusy⟩ := check_enabled sys.view id hg
          have h0 := h3 hbusy
          refine ⟨fun id2 hid2 => ?_, ?_, fun hc => ?_⟩
          · have := h1 id2 hid2
            simp [Sys.absorb, List.count_append, this, hid2]
          · simp [Sys.absorb, List.count_append, h0]
          · simp [Sys.absorb, setCheckingUserId] at hc
      · cases hstep
  | putSettled id o =>
      simp only [step] at hstep
      split at hstep
      · next hg =>
          injection hstep with hstep
          subst hstep
          have hidu : id = u := by
            by_contra hne
            have := h1 id hne
            rw [List.count_eq_zero] at this
            exact this hg
          subst hidu
          have haw : (handleCheck_settled o id sys.view).awaits = none := by
            cases o <;> rfl
          have hcount : ((sys.absorb (some (.put id)) (handleCheck_settled o id sys.view)).pending).count
              (.put id) = 0 := by
            simp only [Sys.absorb, haw, Option.toList, List.append_nil, List.count_erase_self]
            omega
          refine ⟨fun id2 hid2 => ?_, ?_, fun _ => hcount⟩
          · have := h1 id2 hid2
            simp only [Sys.absorb, haw, Option.toList, List.append_nil]
            rw [List.count_erase_of_ne (by simpa using hid2)]
            exact this
          · rw [hcount]; exact Nat.zero_le _
      · cases hstep
  | clickDelete id =>
      simp only [step] at hstep
      split at hstep
      · injection hstep with hstep
        subst hstep
        refine ⟨fun id hid => ?_, ?_, fun hc => ?_⟩
        · simpa [Sys.absorb, handleDelete] using h1 id hid
        · simpa [Sys.absorb, handleDelete] using h2
        · simpa [Sys.absorb, handleDelete] using
            h3 (by simpa [Sys.absorb, handleDelete, setAlert, setUserToDelete] using hc)
      · cases hstep
  | clickConfirm =>
      simp only [step] at hstep
      split at hstep
      · cases hstep
      · injection hstep with hstep
        subst hstep
        have hv : (confirmDelete_start env sys.view).state.checkingUserId
            = sys.view.checkingUserId := by
          obtain ⟨headers, hh⟩ := getAuthHeaders_ok env
          unfold confirmDelete_start
          split
          · rfl
          · split
            · rfl
            · simp [hh, setAlert, setDeletingUserId]
        have hc : ∀ id, ((sys.absorb none (confirmDelete_start env sys.view)).pending).count
            (.put id) = sys.pending.count (.put id) := by
          intro id
          obtain ⟨headers, hh⟩ := getAuthHeaders_ok env
          unfold confirmDelete_start
          split
          · simp [Sys.absorb]
          · split
            · simp [Sys.absorb]
            · simp [hh, Sys.absorb, List.count_append]
        refine ⟨fun id hid => ?_, ?_, fun hcu => ?_⟩
        · rw [hc]; exact h1 id hid
        · rw [hc]; exact h2
        · rw [hc]; exact h3 (by simpa [Sys.absorb, hv] using hcu)
  | clickCancel =>
      simp only [step] at hstep
      split at hstep
      · cases hstep
      · injection hstep with hstep
        subst hstep
        refine ⟨fun id hid => ?_, ?_, fun hc => ?_⟩
        · simpa [Sys.absorb, cancelDelete] using h1 id hid
        · simpa [Sys.absorb, cancelDelete] using h2
        · simpa [Sys.absorb, cancelDelete] using
            h3 (by simpa [Sys.absorb, cancelDelete, setAlert, setUserToDelete] using hc)
  | deleteSettled id o =>
      simp only [step] at hstep
      split at hstep
      · injection hstep with hstep
        subst hstep
        have hv : (confirmDelete_settled o id sys.view).state.checkingUserId
            = sys.view.checkingUserId := by
          cases o <;> simp [confirmDelete_settled, confirmDelete_caught, setUsersWith, setAlert,
            setDeletingUserId, setUserToDelete]
        have hc : ∀ id2, ((sys.absorb (some (.delete id))
            (confirmDelete_settled o id sys.view)).pending).count
            (.put id2) = sys.pending.count (.put id2) := by
          intro id2
          cases o <;> simp [Sys.absorb, confirmDelete_settled, confirmDelete_caught,
            List.count_erase_of_ne]
        refine ⟨fun id hid => ?_, ?_, fun hcu => ?_⟩
        · rw [hc]; exact h1 id hid
        · rw [hc]; exact h2
        · rw [hc]; exact h3 (by simpa [Sys.absorb, hv] using hcu)
      · cases hstep

theorem SingleCheck_mount (env : Env) (u : String) : SingleCheck u (mount env) := by
  obtain ⟨r, -, hr⟩ := fetchUsers_start_eq env initialState
  simp [SingleCheck, mount, hr, Sys.absorb]

theorem SingleCheck_idle (u id : String) (sys : Sys) (h : SingleCheck u sys)
    (h0 : sys.pending.count (.put u) = 0) : SingleCheck id sys := by
  have hall : ∀ x, sys.pending.count (.put x) = 0 := by
    intro x
    by_cases hx : x = u
    · rw [hx]
      exact h0
    · exact h.1 x hx
  exact ⟨fun x _ => hall x, by rw [hall id]; exact Nat.zero_le _, fun _ => hall id⟩

theorem SingleCheck_guarded_step (env : Env) (sys sys2 : Sys) (e : Event)
    (hinv : ∃ u, SingleCheck u sys) (hok : checkAlone sys e = true)
    (hstep : step env sys e = some sys2) : ∃ u, SingleCheck u sys2 := by
  obtain ⟨u, hu⟩ := hinv
  by_cases hc : ∃ id, e = Event.clickCheck id
  · obtain ⟨id, rfl⟩ := hc
    by_cases h0 : sys.pending.count (.put u) = 0
    · exact ⟨id, SingleCheck_step env id sys sys2 _ (SingleCheck_idle u id sys hu h0) hstep
        (fun id2 h => by injection h with h; exact h.symm)⟩
    · have hmem : Pending.put u ∈ sys.pending := by
        by_contra hn
        exact h0 (List.count_eq_zero.mpr hn)
      have hg : u = id := by
        simp only [checkAlone, List.all_eq_true] at hok
        simpa using hok _ hmem
      subst hg
      exact ⟨u, SingleCheck_step env u sys sys2 _ hu hstep
        (fun id2 h => by injection h with h; exact h.symm)⟩
  · exact ⟨u, SingleCheck_step env u sys sys2 e hu hstep (fun id h => absurd ⟨id, h⟩ hc)⟩

theorem SingleCheck_guarded_run (env : Env) :
    ∀ (es : List Event) (sys sys2 : Sys), (∃ u, SingleCheck u sys) →
      runGuarded env checkAlone sys es = some sys2 → ∃ u, SingleCheck u sys2 := by
  intro es
  induction es with
  | nil =>
      intro sys sys2 hinv hrun
      simp only [runGuarded, Option.some.injEq] at hrun
      subst hrun
      exact hinv
  | cons e es ih =>
      intro sys sys2 hinv hrun
      simp only [runGuarded] at hrun
      split at hrun
      · next hok =>
          cases hst : step env sys e with
          | none => simp [hst] at hrun
          | some sys1 =>
              simp only [hst] at hrun
              exact ih sys1 sys2 (SingleCheck_guarded_step env sys sys1 e hinv hok hst) hrun
      · cases hrun

/-- C6, as stated, fails: with two unchecked rows `1` and `2`, the check clicks on `1`,
on `2` and on `1` again are all on enabled buttons, and two PUT requests for id `1`
are in flight at once. -/
theorem two_puts_in_flight :
    ¬ (∀ (env : Env) (es : List Event) (sys : Sys) (id : String),
        run env (mount env) es = some sys → sys.pending.count (.put id) ≤ 1) := by
  intro h
  have h1 := h envNone
    [.getSettled (.ok [userA, userB]), .clickCheck "1", .clickCheck "2", .clickCheck "1"]
    { view := { stateAB with checkingUserId := some "1" },
      pending := [.put "1", .put "2", .put "1"],
      sent := [⟨.GET, "http://localhost:5000/api/users",
                [("Content-Type", some "application/json")], none⟩,
               ⟨.PUT, "http://localhost:5000/api/users/1",
                [("Content-Type", some "application/json")], some "\x7b\"checked\":true\x7d"⟩,
               ⟨.PUT, "http://localhost:5000/api/users/2",
                [("Content-Type", some "application/json")], some "\x7b\"checked\":true\x7d"⟩,
               ⟨.PUT, "http://localhost:5000/api/users/1",
                [("Content-Type", some "application/json")], some "\x7b\"checked\":true\x7d"⟩] }
    "1" (by decide)
  exact absurd h1 (by decide)

/-- C6, amended: in every state reachable from the mounted component by events in which
every check click (each on an enabled check button) happens while no PUT request for
another user id is in flight, at most one PUT request is in flight for any user id. -/
theorem one_put_in_flight (env : Env) (es : List Event) (sys : Sys)
    (hrun : runGuarded env checkAlone (mount env) es = some sys) (id : String) :
    sys.pending.count (.put id) ≤ 1 := by
  obtain ⟨u, h1, h2, -⟩ :=
    SingleCheck_guarded_run env es (mount env) sys ⟨id, SingleCheck_mount env id⟩ hrun
  by_cases hid : id = u
  · subst hid
    exact h2
  · rw [h1 id hid]
    exact Nat.zero_le _

theorem one_put_in_flight_witness :
    ∃ sys, runGuarded envNone checkAlone (mount envNone) serialChecksTrace = some sys ∧
      sys.pending.count (.put "2") = 1 ∧ sys.pending.count (.put "2") ≤ 1 :=
  ⟨(runGuarded envNone checkAlone (mount envNone) serialChecksTrace).getD (mount envNone),
    by decide, by decide,
    one_put_in_flight envNone serialChecksTrace _ (by decide) "2"⟩

theorem AllChecked_markChecked (users : List User) (id t : String)
    (h : AllChecked users t) : AllChecked (markChecked id users) t := by
  intro v hv hvt
  obtain ⟨u, hu, rfl⟩ := List.mem_map.mp hv
  by_cases hid : u._id = id
  · simp [hid]
  · simp only [hid, if_false] at hvt ⊢
    exact h u hu hvt

theorem AllChecked_filter (users : List User) (p : User → Bool) (t : String)
    (h : AllChecked users t) : AllChecked (users.filter p) t :=
  fun u hu hut => h u (List.mem_of_mem_filter hu) hut

theorem mem_absorb_delete (sys : Sys) (resumed : Option Pending) (e : Effect) (t : String)
    (h : Pending.delete t ∈ (sys.absorb resumed e).pending) :
    Pending.delete t ∈ sys.pending ∨ e.awaits = some (.delete t) := by
  unfold Sys.absorb at h
  simp only [List.mem_append] at h
  rcases h with h | h
  · left
    cases resumed with
    | none => exact h
    | some p => exact List.mem_of_mem_erase h
  · right
    cases he : e.awaits with
    | none => simp [he] at h
    | some q =>
        simp only [he, Option.toList, List.mem_singleton] at h
        rw [h]

theorem noDeletePending_spec (sys : Sys) (h : noDeletePending sys = true) (t : String) :
    Pending.delete t ∉ sys.pending := by
  intro hm
  unfold noDeletePending at h
  rw [List.all_eq_true] at h
  have := h _ hm
  simp at this

theorem DeleteSafe_replace (sys : Sys) (data : List User) (st : State) (pend : List Pending)
    (sent : List Request)
    (hu : st.users = data) (ht : st.userToDelete = sys.view.userToDelete)
    (hp : ∀ t, Pending.delete t ∈ pend → Pending.delete t ∈ sys.pending)
    (hg : (sys.view.userToDelete == none && noDeletePending sys
            && decide (data.map User._id).Nodup) = true) :
    DeleteSafe ⟨st, pend, sent⟩ := by
  simp only [Bool.and_eq_true, beq_iff_eq, decide_eq_true_eq] at hg
  obtain ⟨⟨h1, h2⟩, h3⟩ := hg
  refine ⟨by rw [hu]; exact h3, ?_, ?_⟩
  · intro t htt
    rw [ht, h1] at htt
    cases htt
  · intro t htt
    exact absurd (hp t htt) (noDeletePending_spec sys h2 t)

theorem DeleteSafe_step (env : Env) (sys sys2 : Sys) (e : Event)
    (hinv : DeleteSafe sys) (hok : keepsDeletionApart env sys e = true)
    (hstep : step env sys e = some sys2) : DeleteSafe sys2 := by
  obtain ⟨h1, h2, h3⟩ := hinv
  cases e with
  | refresh =>
      obtain ⟨r, -, hr⟩ := fetchUsers_start_eq env sys.view
      simp only [step, hr] at hstep
      split at hstep
      · cases hstep
      · injection hstep with hstep
        subst hstep
        refine ⟨h1, h2, fun t ht => ?_⟩
        rcases mem_absorb_delete _ _ _ _ ht with ht | ht
        · exact h3 t ht
        · cases ht
  | getSettled o =>
      simp only [step] at hstep
      split at hstep
      · injection hstep with hstep
        subst hstep
        cases o with
        | ok data =>
            exact DeleteSafe_replace sys data _ _ _ rfl rfl
              (fun t ht => by
                simp only [fetchUsers_settled, Option.toList, List.append_nil] at ht
                exact List.mem_of_mem_erase ht)
              (by simpa [keepsDeletionApart, replacement] using hok)
        | okBadBody =>
            refine ⟨h1, h2, fun t ht => ?_⟩
            rcases mem_absorb_delete _ _ _ _ ht with ht | ht
            · exact h3 t ht
            · cases ht
        | notOk =>
            refine ⟨h1, h2, fun t ht => ?_⟩
            rcases mem_absorb_delete _ _ _ _ ht with ht | ht
            · exact h3 t ht
            · cases ht
        | rejected =>
            refine ⟨h1, h2, fun t ht => ?_⟩
            rcases mem_absorb_delete _ _ _ _ ht with ht | ht
            · exact h3 t ht
            · cases ht
      · cases hstep
  | timerFired =>
      simp only [step] at hstep
      split at hstep
      · injection hstep with hstep
        subst hstep
        cases hm : env.mockUsers with
        | some data =>
            refine DeleteSafe_replace sys data _ _ _ ?_ ?_ (fun t ht => ?_)
              (by simpa [keepsDeletionApart, replacement, hm] using hok)
            · simp [fetchUsers_fallback, hm, setUsers, setAlert, setIsLoading]
            · simp [fetchUsers_fallback, hm, setUsers, setAlert, setIsLoading]
            · simp only [fetchUsers_fallback, hm, Option.toList, List.append_nil] at ht
              exact List.mem_of_mem_erase ht
        | none =>
            have hst : (fetchUsers_fallback env sys.view).state = setIsLoading false sys.view := by
              simp [fetchUsers_fallback, hm]
            refine ⟨by simpa [Sys.absorb, hst, setIsLoading] using h1, ?_, fun t ht => ?_⟩
            · simpa [Sys.absorb, hst, setIsLoading] using h2
            · rcases mem_absorb_delete _ _ _ _ ht with ht | ht
              · simpa [Sys.absorb, hst, setIsLoading] using h3 t ht
              · simp [fetchUsers_fallback, hm] at ht
      · cases hstep
  | clickCheck id =>
      obtain ⟨r, -, hr⟩ := handleCheck_start_eq env id sys.view
      simp only [step, hr] at hstep
      split at hstep
      · injection hstep with hstep
        subst hstep
        refine ⟨h1, h2, fun t ht => ?_⟩
        rcases mem_absorb_delete _ _ _ _ ht with ht | ht
        · exact h3 t ht
        · cases ht
      · cases hstep
  | putSettled id o =>
      simp only [step] at hstep
      split at hstep
      · injection hstep with hstep
        subst hstep
        have hst : (handleCheck_settled o id sys.view).state.users
              = markChecked id sys.view.users ∧
            (handleCheck_settled o id sys.view).state.userToDelete = sys.view.userToDelete ∧
            (handleCheck_settled o id sys.view).awaits = none := by
          cases o <;> simp [handleCheck_settled, handleCheck_caught, setUsersWith, setAlert,
            setCheckingUserId]
        obtain ⟨hs1, hs2, hs3⟩ := hst
        refine ⟨?_, fun t ht => ?_, fun t ht => ?_⟩
        · simp only [Sys.absorb, hs1, markChecked_ids]
          exact h1
        · simp only [Sys.absorb, hs1, hs2] at ht ⊢
          exact AllChecked_markChecked _ _ _ (h2 t ht)
        · simp only [Sys.absorb, hs1]
          rcases mem_absorb_delete _ _ _ _ ht with ht | ht
          · exact AllChecked_markChecked _ _ _ (h3 t ht)
          · rw [hs3] at ht
            cases ht
      · cases hstep
  | clickDelete id =>
      simp only [step] at hstep
      split at hstep
      · next hg =>
          injection hstep with hstep
          subst hstep
          obtain ⟨-, u, hu, hid, hc, -⟩ := delete_enabled sys.view id hg
          refine ⟨h1, fun t ht => ?_, fun t ht => ?_⟩
          · simp only [Sys.absorb, handleDelete, setAlert, setUserToDelete,
              Option.some.injEq] at ht ⊢
            subst ht
            intro v hv hvid
            have : v = u := List.inj_on_of_nodup_map h1 hv hu (hvid.trans hid.symm)
            rw [this]
            exact hc
          · rcases mem_absorb_delete _ _ _ _ ht with ht | ht
            · exact h3 t ht
            · cases ht
      · cases hstep
  | clickConfirm =>
      simp only [step] at hstep
      split at hstep
      · cases hstep
      · injection hstep with hstep
        subst hstep
        by_cases hidle : sys.view.userToDelete = none ∨ sys.view.userToDelete = some ""
        · rw [confirmDelete_start_idle env sys.view hidle]
          refine ⟨h1, h2, fun t ht => ?_⟩
          rcases mem_absorb_delete _ _ _ _ ht with ht | ht
          · exact h3 t ht
          · cases ht
        · cases htd : sys.view.userToDelete with
          | none => exact absurd (Or.inl htd) hidle
          | some t0 =>
              have hne : t0 ≠ "" := fun h => hidle (Or.inr (by rw [htd, h]))
              obtain ⟨r, -, -, hr⟩ := confirmDelete_start_eq env sys.view t0 htd hne
              rw [hr]
              refine ⟨h1, fun t ht => ?_, fun t ht => ?_⟩
              · exact h2 t (by simpa [Sys.absorb, setAlert, setDeletingUserId] using ht)
              · rcases mem_absorb_delete _ _ _ _ ht with ht | ht
                · exact h3 t ht
                · simp only [Option.some.injEq, Pending.delete.injEq] at ht
                  subst ht
                  exact h2 t0 htd
  | clickCancel =>
      simp only [step] at hstep
      split at hstep
      · cases hstep
      · injection hstep with hstep
        subst hstep
        refine ⟨h1, fun t ht => ?_, fun t ht => ?_⟩
        · simp [Sys.absorb, cancelDelete, setAlert, setUserToDelete] at ht
        · rcases mem_absorb_delete _ _ _ _ ht with ht | ht
          · exact h3 t ht
          · cases ht
  | deleteSettled id o =>
      simp only [step] at hstep
      split at hstep
      · injection hstep with hstep
        subst hstep
        have hst : (confirmDelete_settled o id sys.view).state.users
              = sys.view.users.filter (fun user => user._id ≠ id) ∧
            (confirmDelete_settled o id sys.view).state.userToDelete = none ∧
            (confirmDelete_settled o id sys.view).awaits = none := by
          cases o <;> simp [confirmDelete_settled, confirmDelete_caught, setUsersWith,
            setAlert, setDeletingUserId, setUserToDelete]
        obtain ⟨hs1, hs2, hs3⟩ := hst
        refine ⟨?_, fun t ht => ?_, fun t ht => ?_⟩
        · simp only [Sys.absorb, hs1]
          exact h1.sublist ((List.filter_sublist _).map _)
        · simp only [Sys.absorb, hs2] at ht
          cases ht
        · simp only [Sys.absorb, hs1]
          rcases mem_absorb_delete _ _ _ _ ht with ht | ht
          · exact AllChecked_filter _ _ _ (h3 t ht)
          · rw [hs3] at ht
            cases ht
      · cases hstep

theorem DeleteSafe_mount (env : Env) : DeleteSafe (mount env) := by
  obtain ⟨r, -, hr⟩ := fetchUsers_start_eq env initialState
  unfold mount
  rw [hr]
  refine ⟨?_, ?_, ?_⟩
  · simp [Sys.absorb, setIsLoading, initialState]
  · intro t ht
    simp [Sys.absorb, setIsLoading, initialState] at ht
  · intro t ht
    simp [Sys.absorb] at ht

theorem DeleteSafe_run (env : Env) :
    ∀ (es : List Event) (sys sys2 : Sys), DeleteSafe sys →
      runGuarded env (keepsDeletionApart env) sys es = some sys2 → DeleteSafe sys2 := by
  intro es
  induction es with
  | nil =>
      intro sys sys2 hinv hrun
      simp only [runGuarded, Option.some.injEq] at hrun
      subst hrun
      exact hinv
  | cons e es ih =>
      intro sys sys2 hinv hrun
      simp only [runGuarded] at hrun
      split at hrun
      · next hok =>
          cases hst : step env sys e with
          | none => simp [hst] at hrun
          | some sys1 =>
              simp only [hst] at hrun
              exact ih sys1 sys2 (DeleteSafe_step env sys sys1 e hinv hok hst) hrun
      · cases hrun

/-- C1, as stated, fails: user `1` is checked by a PUT that the backend refuses, selected
for deletion, and reloaded unchecked by a refresh before the confirmation; the
confirmed DELETE then removes the record while its checked flag is false. -/
theorem confirmDelete_removes_unchecked :
    ¬ (∀ (env : Env) (es : List Event) (sys sys2 : Sys) (t : String) (o : Outcome),
        run env (mount env) es = some sys → step env sys (.deleteSettled t o) = some sys2 →
        ∀ u ∈ sys.view.users, u ∉ sys2.view.users → u.checked = true) := by
  intro h
  have h1 := h envNone reloadTrace reloadSys reloadDone "1" .ok (by decide) (by decide)
    userA (by decide) (by decide)
  exact absurd h1 (by decide)

/-- C1, amended: in every state reachable from the mounted component through its events
(check and delete clicks only on enabled buttons), as long as `fetchUsers` replaces the
users list only while no delete target is pending and no DELETE is in flight, and
only by lists with pairwise distinct `_id`s, a confirmed deletion never removes from the
users list a record whose checked flag is false at the moment it is removed. -/
theorem confirmDelete_removes_checked (env : Env) (es : List Event) (sys sys2 : Sys)
    (t : String) (o : Outcome)
    (hrun : runGuarded env (keepsDeletionApart env) (mount env) es = some sys)
    (hstep : step env sys (.deleteSettled t o) = some sys2)
    (u : User) (hu : u ∈ sys.view.users) (hgone : u ∉ sys2.view.users) :
    u.checked = true := by
  obtain ⟨-, -, h3⟩ := DeleteSafe_run env es (mount env) sys (DeleteSafe_mount env) hrun
  simp only [step] at hstep
  split at hstep
  · next hp =>
      injection hstep with hstep
      subst hstep
      have hst : (confirmDelete_settled o t sys.view).state.users
            = sys.view.users.filter (fun user => user._id ≠ t) := by
        cases o <;> simp [confirmDelete_settled, confirmDelete_caught, setUsersWith,
          setAlert, setDeletingUserId, setUserToDelete]
      simp only [Sys.absorb, hst, List.mem_filter, hu, true_and, decide_eq_true_eq,
        ne_eq, not_not] at hgone
      exact h3 t hp u hu hgone
  · cases hstep

theorem confirmDelete_removes_checked_witness :
    runGuarded envNone (keepsDeletionApart envNone) (mount envNone) deleteTrace
        = some deleteSys ∧
      step envNone deleteSys (.deleteSettled "1" .rejected) = some deleteDone ∧
      ({ userA with checked := true } : User) ∈ deleteSys.view.users ∧
      ({ userA with checked := true } : User) ∉ deleteDone.view.users ∧
      ({ userA with checked := true } : User).checked = true :=
  ⟨by decide, by decide, by decide, by decide,
    confirmDelete_removes_checked envNone deleteTrace deleteSys deleteDone
      "1" .rejected (by decide) (by decide) { userA with checked := true } (by decide)
      (by decide)⟩

theorem run_append_singleton (env : Env) (e : Event) :
    ∀ (es : List Event) (sys : Sys),
      run env sys (es ++ [e]) = (run env sys es).bind (fun sys1 => step env sys1 e) := by
  intro es
  induction es with
  | nil =>
      intro sys
      simp only [List.nil_append, run, Option.some_bind]
      cases step env sys e <;> rfl
  | cons a es ih =>
      intro sys
      simp only [List.cons_append, run]
      cases step env sys a with
      | none => rfl
      | some sys1 => exact ih sys1

theorem clickDelete_effect (env : Env) (sys sys2 : Sys) (t : String)
    (hstep : step env sys (.clickDelete t) = some sys2) :
    sys2.view.userToDelete = some t ∧ sys2.view.alert.type = "confirm" ∧
      sys2.view.alert.showConfirm = true ∧ sys2.sent = sys.sent ∧
      sys2.view.users = sys.view.users ∧ sys2.pending = sys.pending := by
  simp only [step] at hstep
  split at hstep
  · injection hstep with hstep
    subst hstep
    simp [Sys.absorb, handleDelete, setAlert, setUserToDelete]
  · cases hstep

theorem userToDelete_origin (env : Env) (sys sys2 : Sys) (e : Event) (t : String)
    (hstep : step env sys e = some sys2) (ht : sys2.view.userToDelete = some t) :
    e = .clickDelete t ∨ sys.view.userToDelete = some t := by
  cases e with
  | refresh =>
      obtain ⟨r, -, hr⟩ := fetchUsers_start_eq env sys.view
      simp only [step, hr] at hstep
      split at hstep
      · cases hstep
      · injection hstep with hstep
        subst hstep
        exact Or.inr ht
  | getSettled o =>
      simp only [step] at hstep
      split at hstep
      · injection hstep with hstep
        subst hstep
        right
        cases o <;> simpa [Sys.absorb, fetchUsers_settled, setUsers, setIsLoading] using ht
      · cases hstep
  | timerFired =>
      simp only [step] at hstep
      split at hstep
      · injection hstep with hstep
        subst hstep
        right
        unfold fetchUsers_fallback at ht
        cases hm : env.mockUsers <;>
          simpa [hm, Sys.absorb, setUsers, setAlert, setIsLoading] using ht
      · cases hstep
  | clickCheck id =>
      obtain ⟨r, -, hr⟩ := handleCheck_start_eq env id sys.view
      simp only [step, hr] at hstep
      split at hstep
      · injection hstep with hstep
        subst hstep
        exact Or.inr ht
      · cases hstep
  | putSettled id o =>
      simp only [step] at hstep
      split at hstep
      · injection hstep with hstep
        subst hstep
        right
        cases o <;> simpa [Sys.absorb, handleCheck_settled, handleCheck_caught, setUsersWith,
          setAlert, setCheckingUserId] using ht
      · cases hstep
  | clickDelete id =>
      left
      have := (clickDelete_effect env sys sys2 id hstep).1
      rw [this] at ht
      injection ht with ht
      rw [ht]
  | clickConfirm =>
      simp only [step] at hstep
      split at hstep
      · cases hstep
      · injection hstep with hstep
        subst hstep
        right
        by_cases hidle : sys.view.userToDelete = none ∨ sys.view.userToDelete = some ""
        · rw [confirmDelete_start_idle env sys.view hidle] at ht
          exact ht
        · cases htd : sys.view.userToDelete with
          | none => exact absurd (Or.inl htd) hidle
          | some t0 =>
              have hne : t0 ≠ "" := fun h => hidle (Or.inr (by rw [htd, h]))
              obtain ⟨r, -, -, hr⟩ := confirmDelete_start_eq env sys.view t0 htd hne
              rw [hr] at ht
              simpa [Sys.absorb, setAlert, setDeletingUserId, htd] using ht
  | clickCancel =>
      simp only [step] at hstep
      split at hstep
      · cases hstep
      · injection hstep with hstep
        subst hstep
        simp [Sys.absorb, cancelDelete, setAlert, setUserToDelete] at ht
  | deleteSettled id o =>
      simp only [step] at hstep
      split at hstep
      · injection hstep with hstep
        subst hstep
        cases o <;> simp [Sys.absorb, confirmDelete_settled, confirmDelete_caught, setUsersWith,
          setAlert, setDeletingUserId, setUserToDelete] at ht
      · cases hstep

theorem pending_target_prompted (env : Env) :
    ∀ (es : List Event) (sys : Sys), run env (mount env) es = some sys →
      ∀ t, sys.view.userToDelete = some t → Prompted env es t := by
  intro es
  induction es using List.reverseRecOn with
  | nil =>
      intro sys hrun t ht
      simp only [run, Option.some.injEq] at hrun
      subst hrun
      obtain ⟨r, -, hr⟩ := fetchUsers_start_eq env initialState
      unfold mount at ht
      rw [hr] at ht
      simp [Sys.absorb, setIsLoading, initialState] at ht
  | append_singleton es e ih =>
      intro sys2 hrun t ht
      rw [run_append_singleton] at hrun
      cases hes : run env (mount env) es with
      | none => simp [hes] at hrun
      | some sys =>
          simp only [hes, Option.some_bind] at hrun
          rcases userToDelete_origin env sys sys2 e t hrun ht with he | hprev
          · subst he
            obtain ⟨h1, h2, h3, h4, h5, -⟩ := clickDelete_effect env sys sys2 t hrun
            exact ⟨es, [], sys, sys2, rfl, hes, hrun, h1, h2, h3, h4, h5⟩
          · obtain ⟨pre, post, sys0, sys1, hsplit, hpre, hst, hrest⟩ := ih sys hes t hprev
            exact ⟨pre, post ++ [e], sys0, sys1, by simp [hsplit], hpre, hst, hrest⟩

theorem step_sent (env : Env) (sys sys2 : Sys) (e : Event)
    (hstep : step env sys e = some sys2) :
    ∃ rs, sys2.sent = sys.sent ++ rs ∧
      ∀ r ∈ rs, r.method = .DELETE →
        e = .clickConfirm ∧ rs = [r] ∧
          ∃ t, sys.view.userToDelete = some t ∧ t ≠ "" ∧ r.url = API_URL env ++ "/users/" ++ t := by
  cases e with
  | refresh =>
      obtain ⟨r, hm, hr⟩ := fetchUsers_start_eq env sys.view
      simp only [step, hr] at hstep
      split at hstep
      · cases hstep
      · injection hstep with hstep
        subst hstep
        refine ⟨[r], rfl, fun r2 hr2 hd => ?_⟩
        rw [List.mem_singleton.mp hr2, hm] at hd
        cases hd
  | getSettled o =>
      simp only [step] at hstep
      split at hstep
      · injection hstep with hstep
        subst hstep
        refine ⟨[], ?_, fun r hr => absurd hr (List.not_mem_nil r)⟩
        cases o <;> simp [Sys.absorb, fetchUsers_settled]
      · cases hstep
  | timerFired =>
      simp only [step] at hstep
      split at hstep
      · injection hstep with hstep
        subst hstep
        refine ⟨[], ?_, fun r hr => absurd hr (List.not_mem_nil r)⟩
        unfold fetchUsers_fallback
        cases env.mockUsers <;> simp [Sys.absorb]
      · cases hstep
  | clickCheck id =>
      obtain ⟨r, hm, hr⟩ := handleCheck_start_eq env id sys.view
      simp only [step, hr] at hstep
      split at hstep
      · injection hstep with hstep
        subst hstep
        refine ⟨[r], rfl, fun r2 hr2 hd => ?_⟩
        rw [List.mem_singleton.mp hr2, hm] at hd
        cases hd
      · cases hstep
  | putSettled id o =>
      simp only [step] at hstep
      split at hstep
      · injection hstep with hstep
        subst hstep
        refine ⟨[], ?_, fun r hr => absurd hr (List.not_mem_nil r)⟩
        cases o <;> simp [Sys.absorb, handleCheck_settled, handleCheck_caught]
      · cases hstep
  | clickDelete id =>
      exact ⟨[], by simp [(clickDelete_effect env sys sys2 id hstep).2.2.2.1],
        fun r hr => absurd hr (List.not_mem_nil r)⟩
  | clickConfirm =>
      simp only [step] at hstep
      split at hstep
      · cases hstep
      · injection hstep with hstep
        subst hstep
        by_cases hidle : sys.view.userToDelete = none ∨ sys.view.userToDelete = some ""
        · rw [confirmDelete_start_idle env sys.view hidle]
          exact ⟨[], by simp [Sys.absorb], fun r hr => absurd hr (List.not_mem_nil r)⟩
        · cases htd : sys.view.userToDelete with
          | none => exact absurd (Or.inl htd) hidle
          | some t0 =>
              have hne : t0 ≠ "" := fun h => hidle (Or.inr (by rw [htd, h]))
              obtain ⟨r, -, hurl, hr⟩ := confirmDelete_start_eq env sys.view t0 htd hne
              rw [hr]
              refine ⟨[r], rfl, fun r2 hr2 _ => ?_⟩
              have h2 := List.mem_singleton.mp hr2
              subst h2
              exact ⟨rfl, rfl, t0, rfl, hne, hurl⟩
  | clickCancel =>
      simp only [step] at hstep
      split at hstep
      · cases hstep
      · injection hstep with hstep
        subst hstep
        exact ⟨[], by simp [Sys.absorb, cancelDelete], fun r hr => absurd hr (List.not_mem_nil r)⟩
  | deleteSettled id o =>
      simp only [step] at hstep
      split at hstep
      · injection hstep with hstep
        subst hstep
        refine ⟨[], ?_, fun r hr => absurd hr (List.not_mem_nil r)⟩
        cases o <;> simp [Sys.absorb, confirmDelete_settled, confirmDelete_caught]
      · cases hstep

/-- C5: in every run of the mounted component, an event that sends a DELETE request is a
confirmation (`confirmDelete`) in a state whose pending target `t` is non-null, the
request is the only one it sends and goes to `/users/t`, and earlier in the run a
delete click (`handleDelete`) on `t` set that target together with an alert of type
`confirm` with showConfirm true, itself sending nothing and leaving the users list as it
was. `handleDelete` never issues a request nor changes the users list, and
`confirmDelete` without pending target issues no request and changes no state. -/
theorem delete_request_after_prompt (env : Env) (es : List Event) (sys sys2 : Sys)
    (e : Event) (rs : List Request) (r : Request)
    (hrun : run env (mount env) es = some sys) (hstep : step env sys e = some sys2)
    (hsent : sys2.sent = sys.sent ++ rs) (hr : r ∈ rs) (hm : r.method = .DELETE) :
    (e = .clickConfirm ∧ rs = [r] ∧
      ∃ t, sys.view.userToDelete = some t ∧ r.url = API_URL env ++ "/users/" ++ t ∧
        Prompted env es t) ∧
    (∀ userId s, (handleDelete userId s).requests = [] ∧
        (handleDelete userId s).awaits = none ∧
        (handleDelete userId s).state.users = s.users) ∧
    (∀ s : State, s.userToDelete = none →
        confirmDelete_start env s
          = { state := s, requests := [], awaits := none, thrown := none }) := by
  refine ⟨?_, fun userId s => ⟨rfl, rfl, rfl⟩,
    fun s hs => confirmDelete_start_idle env s (Or.inl hs)⟩
  obtain ⟨rs2, hrs2, hall⟩ := step_sent env sys sys2 e hstep
  have heq : rs2 = rs := List.append_cancel_left (hrs2.symm.trans hsent)
  subst heq
  obtain ⟨he, hone, t, ht, -, hurl⟩ := hall r hr hm
  exact ⟨he, hone, t, ht, hurl, pending_target_prompted env es sys hrun t ht⟩

theorem delete_request_after_prompt_witness :
    run envNone (mount envNone) promptTrace = some promptSys ∧
      step envNone promptSys .clickConfirm = some deleteSys ∧
      promptSys.view.userToDelete = some "1" ∧
      Prompted envNone promptTrace "1" := by
  have h := (delete_request_after_prompt envNone promptTrace promptSys deleteSys .clickConfirm
    [⟨.DELETE, "http://localhost:5000/api/users/1",
      [("Content-Type", some "application/json")], none⟩]
    ⟨.DELETE, "http://localhost:5000/api/users/1",
      [("Content-Type", some "application/json")], none⟩
    (by decide) (by decide) (by decide) (by decide) (by decide)).1
  obtain ⟨-, -, t, ht, -, hp⟩ := h
  have h1 : promptSys.view.userToDelete = some "1" := by decide
  have ht1 : t = "1" := Option.some.inj (ht.symm.trans h1)
  subst ht1
  exact ⟨by decide, by decide, h1, hp⟩

end Dashboard
